import Mathlib

/-!
# Verification of the js4j wire-protocol client

A shallow embedding, in Lean 4, of the parts of the js4j repository that the
frozen claims are about:

* `src/protocol.js` — string escaping, command-part encoding, response
  decoding (`escapeNewLines`, `unescapeNewLines`, `encodeCommandPart`,
  `decodeReturnValue`, `decodeTypedValue`);
* `src/javaObject.js` — `getField` command routing and the object-proxy
  `get` trap;
* `src/jvmView.js` — the class/package/JVM-view proxy `get` traps;
* `src/collections.js` — the list/set/map/array/iterator proxy `get` traps;
* `src/callbackServer.js` — `CallbackConnection._handleCommand`,
  `_sendSuccess`, `_sendError`;
* `src/clientServer.js` — `ConnectionPool.acquire` / `release`.

Strings from the JavaScript source are embedded as `List Char`; JavaScript
numbers are embedded as exact integers together with an explicit model of
rounding to 53 significant bits (`roundToDouble`) at the places where the
source compares a parsed value against `Number.MAX_SAFE_INTEGER`.
-/

/-! ## List-of-characters helpers mirroring JavaScript string primitives -/

/-- `s.replace(/c/g, rep)` for a single-character pattern `c`: every
occurrence of `c` is replaced by `rep`, in one left-to-right pass. -/
def replaceChar (c : Char) (rep : List Char) : List Char → List Char
  | [] => []
  | x :: xs => (if x = c then rep else [x]) ++ replaceChar c rep xs

/-- `s.replace(/ab/g, rep)` for a two-character pattern `a b`: JavaScript's
global regex replace scans left to right and resumes after each match. -/
def replaceSeq2 (a b : Char) (rep : List Char) : List Char → List Char
  | [] => []
  | [x] => [x]
  | x :: y :: xs =>
    if x = a ∧ y = b then rep ++ replaceSeq2 a b rep xs
    else x :: replaceSeq2 a b rep (y :: xs)

/-! ## String escaping (`src/protocol.js`, `escapeNewLines` / `unescapeNewLines`)

```js
function escapeNewLines(s) {
  return s.replace(/\\/g, '\\\\').replace(/\n/g, '\\n');
}
function unescapeNewLines(s) {
  return s.replace(/\\n/g, '\n').replace(/\\\\/g, '\\');
}
```
-/

/-- `escapeNewLines`: first every backslash becomes two backslashes, then
every newline becomes backslash-`n`. -/
def escapeNewLines (s : List Char) : List Char :=
  replaceChar '\n' ['\\', 'n'] (replaceChar '\\' ['\\', '\\'] s)

/-- `unescapeNewLines`: first every backslash-`n` pair becomes a newline,
then every pair of backslashes becomes one backslash. -/
def unescapeNewLines (s : List Char) : List Char :=
  replaceSeq2 '\\' '\\' ['\\'] (replaceSeq2 '\\' 'n' ['\n'] s)

example : escapeNewLines ['a', '\n', 'b'] = ['a', '\\', 'n', 'b'] := by decide
example : unescapeNewLines ['a', '\\', 'n', 'b'] = ['a', '\n', 'b'] := by decide

/-! ## Protocol constants (`src/protocol.js`) -/

def CALL_COMMAND_NAME : List Char := ['c', '\n']
def FIELD_COMMAND_NAME : List Char := ['f', '\n']
def REFLECTION_COMMAND_NAME : List Char := ['r', '\n']
def FIELD_GET_SUB_COMMAND_NAME : List Char := ['g', '\n']
def REFL_GET_MEMBER_SUB_COMMAND_NAME : List Char := ['m', '\n']
def END_TOKEN : List Char := ['e']
def END_COMMAND_PART : Char := '\n'
/-- Source name: `STATIC_PREFIX` (the `"z:"` marker for static dispatch). -/
def STATIC_PREFIX_STR : List Char := ['z', ':']

def SUCCESS : Char := 'y'
def ERROR_CODE : Char := 'x'
def FATAL_ERROR : Char := 'z'
def RETURN_MESSAGE : Char := '!'

/-! ## JavaScript values handed to the encoder

`encodeCommandPart` in `src/protocol.js` dispatches on the JavaScript
runtime type of its argument.  The variants below model, in source order,
the values the claims are about: `null`/`undefined`, booleans, bigints,
numbers (split into integer-valued numbers, carried exactly, and
non-integer numbers, carried by their textual form since the claims never
inspect them), strings, objects carrying a `_targetId` (proxies), and
plain arrays (which the encoder refuses).  The `Buffer`/`Uint8Array` and
`_js4jProxy` branches of the source are not modelled: no claim mentions
them and no modelled value reaches those branches. -/
inductive JSValue where
  | nullV : JSValue
  | undefinedV : JSValue
  | boolV : Bool → JSValue
  | bigintV : Int → JSValue
  | numInt : Int → JSValue
  | numFloat : List Char → JSValue
  | strV : List Char → JSValue
  | refV : List Char → JSValue
  | arrV : JSValue
deriving DecidableEq, Repr

/-! ## Model of IEEE-754 double rounding for integers

JavaScript's `parseInt` returns a double: an integer read from a digit
string is rounded to the nearest value with at most 53 significant bits
(ties to even).  `src/protocol.js` compares that rounded value against
`Number.MAX_SAFE_INTEGER`/`MIN_SAFE_INTEGER`, so the rounding must be part
of the model.  (Doubles also overflow to infinity near 1.8e308; the
overflowed comparison against `MAX_SAFE_INTEGER` gives the same branch as
the un-overflowed one, so overflow is not modelled separately.) -/

/-- Bit length by repeated halving; the first argument is fuel (any value
at least the number itself makes the recursion complete). -/
def bitLenAux : Nat → Nat → Nat
  | 0, _ => 0
  | fuel + 1, n => if n = 0 then 0 else bitLenAux fuel (n / 2) + 1

/-- Number of binary digits of `n` (0 for 0). -/
def bitLen (n : Nat) : Nat := bitLenAux n n

/-- Round a natural number to 53 significant bits, ties to even. -/
def roundMantissa (n : Nat) : Nat :=
  let L := bitLen n
  if L ≤ 53 then n
  else
    let k := L - 53
    let q := n / 2 ^ k
    let r := n % 2 ^ k
    let q2 :=
      if 2 ^ (k - 1) < r then q + 1
      else if r < 2 ^ (k - 1) then q
      else if q % 2 = 0 then q else q + 1
    q2 * 2 ^ k

/-- Round an integer to the nearest IEEE-754 double (53-bit significand). -/
def roundToDouble (v : Int) : Int :=
  if 0 ≤ v then (roundMantissa v.toNat : Int) else -(roundMantissa (-v).toNat : Int)

/-- `Number.MAX_SAFE_INTEGER` = 2^53 - 1. -/
def MAX_SAFE_INTEGER : Int := 9007199254740991

/-- Value of a digit run, most significant first. -/
def digitsVal (ds : List Char) : Nat :=
  ds.foldl (fun a c => a * 10 + (c.toNat - '0'.toNat)) 0

/-- `parseInt(s, 10)`: optional sign, then the longest leading digit run;
`none` models `NaN` (no digits).  Leading-whitespace skipping is not
modelled: wire payloads contain no whitespace. -/
def parseIntJS (s : List Char) : Option Int :=
  match s with
  | [] => none
  | c :: rest =>
    if c = '-' then
      let ds := rest.takeWhile Char.isDigit
      if ds = [] then none else some (-(digitsVal ds : Int))
    else if c = '+' then
      let ds := rest.takeWhile Char.isDigit
      if ds = [] then none else some (digitsVal ds : Int)
    else
      let ds := (c :: rest).takeWhile Char.isDigit
      if ds = [] then none else some (digitsVal ds : Int)

/-- `BigInt(s)`: exact; accepts an optional sign followed by digits making
up the whole string, and the empty string (which is `0n`); `none` models
the `SyntaxError` thrown on anything else. -/
def bigIntOfString (s : List Char) : Option Int :=
  match s with
  | [] => some 0
  | c :: rest =>
    if c = '-' then
      if rest ≠ [] ∧ rest.all Char.isDigit then some (-(digitsVal rest : Int)) else none
    else if c = '+' then
      if rest ≠ [] ∧ rest.all Char.isDigit then some (digitsVal rest : Int) else none
    else
      if (c :: rest).all Char.isDigit then some (digitsVal (c :: rest) : Int) else none

example : parseIntJS ['4', '2'] = some 42 := by decide
example : parseIntJS ['-', '7'] = some (-7) := by decide
example : bigIntOfString ['-', '7'] = some (-7) := by decide
example : roundToDouble 42 = 42 := by decide

/-! ## `encodeCommandPart` (`src/protocol.js`)

`none` models a thrown `Js4JError` (the source refuses plain arrays and
unknown types).  For an integer-valued number `value.toString()` is plain
base-10 digits whenever `|value| < 10^21`; the exponent notation JavaScript
uses above that is not modelled, and every theorem about the integer
branches stays inside the 64-bit range where the decimal form is exact. -/
def encodeCommandPart : JSValue → Option (List Char)
  | .nullV => some ('n' :: [END_COMMAND_PART])
  | .undefinedV => some ('n' :: [END_COMMAND_PART])
  | .boolV b =>
    some ('b' :: (if b then "true".data else "false".data) ++ [END_COMMAND_PART])
  | .bigintV i => some ('L' :: (toString i).data ++ [END_COMMAND_PART])
  | .numInt i =>
    if -2147483648 ≤ i ∧ i ≤ 2147483647 then
      some ('i' :: (toString i).data ++ [END_COMMAND_PART])
    else
      some ('L' :: (toString i).data ++ [END_COMMAND_PART])
  | .numFloat s => some ('d' :: s ++ [END_COMMAND_PART])
  | .strV s => some ('s' :: escapeNewLines s ++ [END_COMMAND_PART])
  | .refV tid => some ('r' :: tid ++ [END_COMMAND_PART])
  | .arrV => none

/-! ## Decoded values

Results of `decodeTypedValue`.  `wrapped id tag` stands for the result of
`gatewayClient._wrapObject(id, tag)`; `wrapJavaObject` in
`src/javaObject.js` dispatches on the tag to one of the five collection
factories or the generic object factory, every one of which stores
`_targetId = id`, so the target ID and the tag determine the proxy. -/
inductive DecodedValue where
  | nullV : DecodedValue
  | boolV : Bool → DecodedValue
  | numV : Int → DecodedValue
  | nanV : DecodedValue
  | bigV : Int → DecodedValue
  | doubleV : List Char → DecodedValue
  | decimalV : List Char → DecodedValue
  | strV : List Char → DecodedValue
  | bytesV : List Char → DecodedValue
  | wrapped : List Char → Char → DecodedValue
  | proxyRef : List Char → DecodedValue
deriving DecidableEq, Repr

/-- The `_targetId` field of the proxy a decoded reference wraps. -/
def targetIdOf : DecodedValue → Option (List Char)
  | .wrapped t _ => some t
  | _ => none

instance {ε α : Type} [DecidableEq ε] [DecidableEq α] : DecidableEq (Except ε α) :=
  fun x y =>
    match x, y with
    | .ok a, .ok b =>
      if h : a = b then .isTrue (by rw [h]) else .isFalse (by simp [h])
    | .error a, .error b =>
      if h : a = b then .isTrue (by rw [h]) else .isFalse (by simp [h])
    | .ok _, .error _ => .isFalse (fun hc => Except.noConfusion hc)
    | .error _, .ok _ => .isFalse (fun hc => Except.noConfusion hc)

/-- `decodeTypedValue` (`src/protocol.js`).  `.error` models a thrown
`Js4JError` (unknown prefix) or the `SyntaxError` escaping the `L` branch
when `BigInt(value)` is called on a malformed string.  The `d` payload is
kept textual (`parseFloat` is not modelled; no claim inspects doubles). -/
def decodeTypedValue (typePrefix : Char) (value : List Char) :
    Except (List Char) DecodedValue :=
  match typePrefix with
  | 'v' => .ok .nullV
  | 'n' => .ok .nullV
  | 'b' => .ok (.boolV (value.map Char.toLower = "true".data))
  | 'i' =>
    .ok (match parseIntJS value with
         | none => .nanV
         | some v => .numV (roundToDouble v))
  | 'L' =>
    match parseIntJS value with
    | none => .ok .nanV
    | some v =>
      let n := roundToDouble v
      if MAX_SAFE_INTEGER < n ∨ n < -MAX_SAFE_INTEGER then
        match bigIntOfString value with
        | some b => .ok (.bigV b)
        | none => .error "Cannot convert to a BigInt".data
      else .ok (.numV n)
  | 'd' => .ok (.doubleV value)
  | 'D' => .ok (.decimalV value)
  | 's' => .ok (.strV (unescapeNewLines value))
  | 'j' => .ok (.bytesV value)
  | 'r' => .ok (.wrapped value 'r')
  | 'l' => .ok (.wrapped value 'l')
  | 'h' => .ok (.wrapped value 'h')
  | 'a' => .ok (.wrapped value 'a')
  | 't' => .ok (.wrapped value 't')
  | 'g' => .ok (.wrapped value 'g')
  | 'f' => .ok (.proxyRef value)
  | _ => .error "Unknown type prefix in value".data

/-- Errors thrown by `decodeReturnValue`: `networkError` is
`Js4JNetworkError`, `js4jError` is `Js4JError`, and `javaError payload exc`
is `Js4JJavaError` whose `javaExceptionMessage` field is `payload` and
whose `javaException` field is `exc` (`none` models `null`). -/
inductive DecodeErr where
  | networkError : List Char → DecodeErr
  | js4jError : List Char → DecodeErr
  | javaError : List Char → Option DecodedValue → DecodeErr
deriving DecidableEq, Repr

/-- `decodeReturnValue` (`src/protocol.js`): strip an optional leading
`!`, then dispatch on the response code.  In the error branch the payload
is decoded best-effort (`try … catch` modelled by `Except.toOption`); an
empty payload reaches the `default` throw of `decodeTypedValue` via an
undefined type prefix, hence also decodes to `none`. -/
def decodeReturnValue (answer0 : List Char) : Except DecodeErr DecodedValue :=
  if answer0 = [] then
    .error (.networkError "Received empty response from gateway".data)
  else
    let answer := if answer0.head? = some RETURN_MESSAGE then answer0.tail else answer0
    match answer with
    | [] => .error (.networkError "Unexpected response code: undefined".data)
    | responseCode :: rest =>
      if responseCode = FATAL_ERROR then
        .error (.js4jError ("Fatal error from gateway: ".data ++ rest))
      else if responseCode = ERROR_CODE then
        let javaException : Option DecodedValue :=
          match rest with
          | [] => none
          | t :: v => (decodeTypedValue t v).toOption
        .error (.javaError rest javaException)
      else if responseCode ≠ SUCCESS then
        .error (.networkError ("Unexpected response code: ".data ++ [responseCode]))
      else
        match rest with
        | [] => .ok .nullV
        | t :: v =>
          match decodeTypedValue t v with
          | .ok d => .ok d
          | .error m => .error (.js4jError m)

example : decodeReturnValue "!yi42".data = .ok (.numV 42) := by decide
example :
    decodeReturnValue "!xro0".data =
      .error (.javaError "ro0".data (some (.wrapped "o0".data 'r'))) := by decide

/-! ## `getField` (`src/javaObject.js`)

The command string built by `getField` for a string target ID.  A target
ID that starts with `STATIC_PREFIX` (`"z:"`, checked here as
`take 2 = STATIC_PREFIX_STR`, the list form of `startsWith`) is routed
through the reflection get-member command on `targetId.slice(2)`; any
other target uses the field-get command.  The response, in both branches,
is passed to `decodeReturnValue`. -/
def getFieldCommand (targetId fieldName : List Char) : List Char :=
  if targetId.take 2 = STATIC_PREFIX_STR then
    let fqn := targetId.drop 2
    REFLECTION_COMMAND_NAME ++ REFL_GET_MEMBER_SUB_COMMAND_NAME ++
      fqn ++ [END_COMMAND_PART] ++ fieldName ++ [END_COMMAND_PART] ++
      END_TOKEN ++ [END_COMMAND_PART]
  else
    FIELD_COMMAND_NAME ++ FIELD_GET_SUB_COMMAND_NAME ++
      targetId ++ [END_COMMAND_PART] ++ fieldName ++ [END_COMMAND_PART] ++
      END_TOKEN ++ [END_COMMAND_PART]

/-- `getField` as command sent plus decode of the peer's answer. -/
def getField (targetId fieldName answer : List Char) :
    List Char × Except DecodeErr DecodedValue :=
  (getFieldCommand targetId fieldName, decodeReturnValue answer)

example :
    getFieldCommand "z:java.lang.Math".data "PI".data =
      "r\nm\njava.lang.Math\nPI\ne\n".data := by decide

/-! ## Proxy `get` traps

Each proxy is a JavaScript `Proxy` whose `get` trap is embedded as a
function from the accessed property name (symbols excluded: every trap
returns `target[prop]` for symbols before anything else) to a description
of what the trap returns. -/

/-- What a proxy `get` trap returns. -/
inductive GetResult where
  /-- The trap passed the access through to a property of the underlying
  target object (its own bookkeeping fields or stored methods). -/
  | ownProp : List Char → GetResult
  /-- A property inherited from `Object.prototype` on a plain object. -/
  | inheritedProp : List Char → GetResult
  /-- `undefined`. -/
  | undefinedV : GetResult
  /-- `(...args) => gatewayClient.callMethod(targetId, prop, args)`. -/
  | methodClosure : List Char → List Char → GetResult
  /-- A `JavaClass` proxy with the given `_fqn`. -/
  | classProxy : List Char → GetResult
  /-- A `JavaPackage` proxy with the given `_fqn`. -/
  | packageProxy : List Char → GetResult
  /-- A thrown `TypeError` (reading `prop[0].toUpperCase()` off an empty
  property name). -/
  | jsError : GetResult
deriving DecidableEq, Repr

/-- String own properties of the `internal` target of `createJavaObject`
(`src/javaObject.js`); the two symbol keys are not string properties. -/
def javaObjectOwnProps : List (List Char) :=
  ["_targetId".data, "_gatewayClient".data]

/-- `createJavaObject`'s `get` trap: own properties pass through, `then`
is refused, anything else becomes a remote-call closure. -/
def javaObjectGet (targetId : List Char) (prop : List Char) : GetResult :=
  if prop ∈ javaObjectOwnProps then .ownProp prop
  else if prop = "then".data then .undefinedV
  else .methodClosure targetId prop

/-- String own properties of the list proxy target (`createJavaList`). -/
def javaListOwnProps : List (List Char) :=
  ["_targetId".data, "_gatewayClient".data, "_isJavaList".data, "size".data,
   "get".data, "add".data, "addAt".data, "remove".data, "set".data,
   "clear".data, "contains".data, "indexOf".data, "subList".data,
   "sort".data, "reverse".data, "count".data, "toArray".data, "call".data]

/-- `createJavaList`'s `get` trap (`src/collections.js`). -/
def javaListGet (targetId : List Char) (prop : List Char) : GetResult :=
  if prop ∈ javaListOwnProps then .ownProp prop
  else if prop = "then".data then .undefinedV
  else .methodClosure targetId prop

/-- String own properties of the set proxy target (`createJavaSet`). -/
def javaSetOwnProps : List (List Char) :=
  ["_targetId".data, "_gatewayClient".data, "_isJavaSet".data, "size".data,
   "add".data, "remove".data, "contains".data, "clear".data, "toArray".data,
   "toSet".data, "call".data]

/-- `createJavaSet`'s `get` trap (`src/collections.js`). -/
def javaSetGet (targetId : List Char) (prop : List Char) : GetResult :=
  if prop ∈ javaSetOwnProps then .ownProp prop
  else if prop = "then".data then .undefinedV
  else .methodClosure targetId prop

/-- String own properties of the map proxy target (`createJavaMap`). -/
def javaMapOwnProps : List (List Char) :=
  ["_targetId".data, "_gatewayClient".data, "_isJavaMap".data, "size".data,
   "get".data, "put".data, "remove".data, "containsKey".data,
   "containsValue".data, "clear".data, "keySet".data, "values".data,
   "entrySet".data, "toMap".data, "toObject".data, "call".data]

/-- `createJavaMap`'s `get` trap (`src/collections.js`). -/
def javaMapGet (targetId : List Char) (prop : List Char) : GetResult :=
  if prop ∈ javaMapOwnProps then .ownProp prop
  else if prop = "then".data then .undefinedV
  else .methodClosure targetId prop

/-- String own properties of the iterator proxy target
(`createJavaIterator`). -/
def javaIteratorOwnProps : List (List Char) :=
  ["_targetId".data, "_gatewayClient".data, "_isJavaIterator".data,
   "hasNext".data, "next".data, "remove".data, "toArray".data, "call".data]

/-- `createJavaIterator`'s `get` trap (`src/collections.js`). -/
def javaIteratorGet (targetId : List Char) (prop : List Char) : GetResult :=
  if prop ∈ javaIteratorOwnProps then .ownProp prop
  else if prop = "then".data then .undefinedV
  else .methodClosure targetId prop

/-- String properties of `Object.prototype`, inherited by every plain
object. -/
def objectProtoProps : List (List Char) :=
  ["constructor".data, "hasOwnProperty".data, "isPrototypeOf".data,
   "propertyIsEnumerable".data, "toLocaleString".data, "toString".data,
   "valueOf".data, "__proto__".data, "__defineGetter__".data,
   "__defineSetter__".data, "__lookupGetter__".data, "__lookupSetter__".data]

/-- String own properties of the plain object returned by
`createJavaArray` (`src/collections.js`); unlike the other collections it
is not wrapped in a `Proxy`. -/
def javaArrayOwnProps : List (List Char) :=
  ["_targetId".data, "_gatewayClient".data, "_isJavaArray".data, "get".data,
   "set".data, "length".data, "slice".data, "toArray".data, "call".data]

/-- Property access on the array proxy: ordinary JavaScript lookup on a
plain object — own properties, then `Object.prototype`, then
`undefined`. -/
def javaArrayGet (prop : List Char) : GetResult :=
  if prop ∈ javaArrayOwnProps then .ownProp prop
  else if prop ∈ objectProtoProps then .inheritedProp prop
  else .undefinedV

/-- String own properties of the function target of `createJavaClass`
(`src/jvmView.js`): the four fields the factory assigns, plus the own
properties every (non-arrow) function object has.  The trap uses
`hasOwnProperty`, so inherited `Function.prototype` members never pass
through. -/
def javaClassOwnProps : List (List Char) :=
  ["_fqn".data, "_targetId".data, "_gatewayClient".data, "_isJavaClass".data,
   "length".data, "name".data, "prototype".data]

/-- `createJavaClass`'s `get` trap: own properties pass through, `then` is
refused, anything else is a static-call closure
`(...args) => callMethod("z:" + fqn, prop, args)`. -/
def javaClassGet (fqn : List Char) (prop : List Char) : GetResult :=
  if prop ∈ javaClassOwnProps then .ownProp prop
  else if prop = "then".data then .undefinedV
  else .methodClosure (STATIC_PREFIX_STR ++ fqn) prop

/-- Properties for which `prop in target` holds on the function target of
`createJavaPackage`: the two fields the factory assigns, the function's
own properties, and — because `in` walks the prototype chain — the members
of `Function.prototype` and `Object.prototype`. -/
def javaPackageInProps : List (List Char) :=
  ["_fqn".data, "_isJavaPackage".data, "length".data, "name".data,
   "prototype".data, "apply".data, "arguments".data, "bind".data,
   "call".data, "caller".data] ++ objectProtoProps

/-- `fqn ? fqn + "." + prop : prop` — the accumulated dotted name. -/
def childFqn (fqn prop : List Char) : List Char :=
  if fqn = [] then prop else fqn ++ '.' :: prop

/-- The uppercase-first-character heuristic
`prop[0] === prop[0].toUpperCase() && prop[0] !== prop[0].toLowerCase()`,
modelled with Lean's ASCII `Char.toUpper`/`Char.toLower` (the claims only
involve ASCII names). -/
def jsUpperFirst (c : Char) : Bool :=
  c.toUpper = c ∧ c.toLower ≠ c

/-- `createJavaPackage`'s `get` trap (`src/jvmView.js`): `prop in target`
passes through, `then` is refused, then the accumulated name is promoted
to a class proxy when the first character is upper-case and otherwise
extends the package chain.  On the empty property name
`prop[0].toUpperCase()` throws a `TypeError`. -/
def javaPackageGet (fqn : List Char) (prop : List Char) : GetResult :=
  if prop ∈ javaPackageInProps then .ownProp prop
  else if prop = "then".data then .undefinedV
  else
    match prop with
    | [] => .jsError
    | c :: _ =>
      if jsUpperFirst c then .classProxy (childFqn fqn prop)
      else .packageProxy (childFqn fqn prop)

/-- Properties for which `prop in target` holds on a `JVMView` instance:
its own fields, the methods of `JVMView.prototype`, and the members of
`Object.prototype`. -/
def jvmViewInProps : List (List Char) :=
  ["_gatewayClient".data, "_imports".data, "_id".data, "javaImport".data,
   "removeImport".data, "getClass".data, "help".data] ++ objectProtoProps

/-- `JVMView`'s `get` trap (`src/jvmView.js`): `prop in target` passes
through, `then` is refused, registered import shortcuts yield a class
proxy for the imported FQN, and otherwise the first character decides
class versus package, exactly as on a package proxy with empty parent. -/
def jvmViewGet (imports : List (List Char × List Char)) (prop : List Char) :
    GetResult :=
  if prop ∈ jvmViewInProps then .ownProp prop
  else if prop = "then".data then .undefinedV
  else
    match imports.lookup prop with
    | some fqn => .classProxy fqn
    | none =>
      match prop with
      | [] => .jsError
      | c :: _ =>
        if jsUpperFirst c then .classProxy prop
        else .packageProxy prop

example : javaPackageGet "a.b".data "X".data = .classProxy "a.b.X".data := by decide
example : javaPackageGet "a.b".data "x".data = .packageProxy "a.b.x".data := by decide
example : javaPackageGet "a.b".data "then".data = .undefinedV := by decide
example : javaPackageGet "a.b".data "name".data = .ownProp "name".data := by decide

/-! ## Callback server (`src/callbackServer.js`, `CallbackConnection`)

A registered local proxy object is modelled by its callable members: an
association list from method name to the method, where a method takes the
decoded arguments and either returns a value or throws (`.error msg`
models a rejected promise / thrown error, carrying `err.message`).  A
name absent from the list covers both a missing property and a property
that is not a function.  The proxy pool is an association list from proxy
ID to proxy. -/

def CallbackMethod : Type := List DecodedValue → Except (List Char) JSValue

def CallbackProxy : Type := List (List Char × CallbackMethod)

def CallbackPool : Type := List (List Char × CallbackProxy)

/-- An action `_handleCommand` performs on the connection's socket.  The
handler and its `_send*` helpers only ever `write`; `destroy` is included
so that the absence of any connection teardown is expressible (only
`CallbackServer.stop` destroys sockets, outside the command handler). -/
inductive SockAct where
  | write : List Char → SockAct
  | destroy : SockAct
deriving DecidableEq, Repr

/-- `_decodeArgs`: decode each non-empty line as a typed value; the first
decoding error propagates (it is thrown inside the caller's `try`). -/
def decodeArgs : List (List Char) → Except (List Char) (List DecodedValue)
  | [] => .ok []
  | line :: rest =>
    match line with
    | [] => decodeArgs rest
    | t :: v =>
      match decodeTypedValue t v with
      | .error m => .error m
      | .ok d => (decodeArgs rest).map (fun ds => d :: ds)

/-- `_sendError(message)`: writes `'!' + ERROR + message + '\n'`. -/
def sendErrorResponse (message : List Char) : List Char :=
  '!' :: ERROR_CODE :: message ++ ['\n']

/-- `_sendSuccessVoid()`: writes `'!' + SUCCESS + VOID_TYPE + '\n'`. -/
def sendSuccessVoidResponse : List Char :=
  ['!', SUCCESS, 'v', '\n']

/-- `_sendSuccess(value)`: `null`/`undefined` report void success; any
other value is encoded, and if `encodeCommandPart` throws, the inner
`catch` falls back to the void-success line. -/
def sendSuccessResponse (value : JSValue) : List Char :=
  if value = .nullV ∨ value = .undefinedV then sendSuccessVoidResponse
  else
    match encodeCommandPart value with
    | some enc => '!' :: SUCCESS :: enc
    | none => sendSuccessVoidResponse

/-- `CallbackConnection._handleCommand(lines)`: socket actions performed
and the proxy pool afterwards.  `lines.getD i []` models `lines[i]`
(reading past the end gives `undefined`, which no pool key or method name
equals, so the empty list is a faithful sentinel for the lookups).  The
source messages quote the offending name; the quotes are dropped here. -/
def handleCommand (lines : List (List Char)) (pool : CallbackPool) :
    List SockAct × CallbackPool :=
  match lines with
  | [] => ([], pool)
  | commandType :: _ =>
    if commandType = ['c'] then
      let proxyId := lines.getD 1 []
      let methodName := lines.getD 2 []
      let argLines := (lines.take (lines.length - 1)).drop 3
      match pool.lookup proxyId with
      | none =>
        ([.write (sendErrorResponse ("No proxy found with id: ".data ++ proxyId))], pool)
      | some proxy =>
        match proxy.lookup methodName with
        | none =>
          ([.write (sendErrorResponse
            ("Method ".data ++ methodName ++ " not found on proxy".data))], pool)
        | some method =>
          match decodeArgs argLines with
          | .error m => ([.write (sendErrorResponse m)], pool)
          | .ok args =>
            match method args with
            | .error m => ([.write (sendErrorResponse m)], pool)
            | .ok result => ([.write (sendSuccessResponse result)], pool)
    else if commandType = ['g'] then
      let proxyId := lines.getD 1 []
      ([.write sendSuccessVoidResponse], pool.filter (fun e => e.1 ≠ proxyId))
    else ([], pool)

/-! ## Connection pool (`src/clientServer.js`, `ConnectionPool`)

The pool state keeps the configured maximum, the idle stack (each entry
is the liveness, `isConnected`, of the stored connection; `push`/`pop`
work at the head), the `_active` counter (an integer, exactly like the
JavaScript counter, which `release` decrements unconditionally) and the
waiter-queue length. -/
structure PoolState where
  maxConnections : Nat
  idle : List Bool
  active : Int
  waiters : Nat
deriving DecidableEq, Repr

/-- Events driving the pool.  `acquire ok` is a call to `acquire()`
(`ok` says whether `conn.connect()` succeeds if a fresh connection is
opened; on failure the exception propagates before `_active++`).
`release live` is a call to `release(conn)` (`live` is the released
connection's `isConnected`).  `disconnect n` is the environment closing
the socket of the `n`-th idle connection while it sits in the pool. -/
inductive PoolEvent where
  | acquire : Bool → PoolEvent
  | release : Bool → PoolEvent
  | disconnect : Nat → PoolEvent
deriving DecidableEq, Repr

/-- The second half of `acquire()`: open a fresh connection when below
the maximum, otherwise park the caller in the waiter queue. -/
def acquireFresh (s : PoolState) (ok : Bool) : PoolState :=
  if s.active < (s.maxConnections : Int) then
    if ok then { s with active := s.active + 1 } else s
  else { s with waiters := s.waiters + 1 }

/-- One pool operation, mirroring `acquire()` / `release(conn)`:
`acquire` first pops the idle stack and hands the popped connection out
only if it `isConnected` (a dead popped connection is discarded and the
fresh-connection path runs); `release` decrements `_active`, hands the
connection straight to a parked waiter if any (incrementing `_active`
back), and otherwise pushes it on the idle stack only if it is live. -/
def poolStep (s : PoolState) : PoolEvent → PoolState
  | .acquire ok =>
    match s.idle with
    | c :: rest =>
      if c then { s with idle := rest, active := s.active + 1 }
      else acquireFresh { s with idle := rest } ok
    | [] => acquireFresh s ok
  | .release live =>
    let s1 := { s with active := s.active - 1 }
    if 0 < s1.waiters then
      { s1 with waiters := s1.waiters - 1, active := s1.active + 1 }
    else if live then { s1 with idle := live :: s1.idle }
    else s1
  | .disconnect n => { s with idle := s.idle.set n false }

/-- A freshly constructed pool: no idle connections, no active ones, no
waiters. -/
def poolInit (mx : Nat) : PoolState :=
  { maxConnections := mx, idle := [], active := 0, waiters := 0 }

example :
    poolStep (poolInit 4) (.acquire true) =
      { maxConnections := 4, idle := [], active := 1, waiters := 0 } := by decide

/-- A one-proxy pool whose only method returns a plain JavaScript array —
a value `encodeCommandPart` refuses (used to exercise the encoding-failure
path of `_sendSuccess`). -/
def arrayReturningPool : CallbackPool :=
  [(['p', '0'], [(['m'], fun _ => Except.ok JSValue.arrV)])]

/-! ## Auxiliary lemmas -/

theorem bitLenAux_zero (fuel : Nat) : bitLenAux fuel 0 = 0 := by
  cases fuel <;> simp [bitLenAux]

theorem bitLenAux_le {m : Nat} :
    ∀ (fuel n : Nat), n < 2 ^ m → bitLenAux fuel n ≤ m := by
  intro fuel
  induction fuel generalizing m with
  | zero => intro n _; simp [bitLenAux]
  | succ fuel ih =>
    intro n hn
    by_cases h0 : n = 0
    · simp [bitLenAux, h0]
    · have hm : m ≠ 0 := by
        rintro rfl
        simp at hn
        omega
      obtain ⟨m', rfl⟩ := Nat.exists_eq_succ_of_ne_zero hm
      have hdiv : n / 2 < 2 ^ m' := by
        have : n < 2 ^ m' * 2 := by rw [← pow_succ]; exact hn
        omega
      simp only [bitLenAux, h0, if_false]
      have := ih (n / 2) hdiv
      omega

theorem le_bitLenAux :
    ∀ (fuel n m : Nat), n ≤ fuel → 2 ^ m ≤ n → m + 1 ≤ bitLenAux fuel n := by
  intro fuel
  induction fuel with
  | zero =>
    intro n m hf hp
    have h1 : 1 ≤ 2 ^ m := Nat.one_le_two_pow
    omega
  | succ fuel ih =>
    intro n m hf hp
    have h1 : 1 ≤ 2 ^ m := Nat.one_le_two_pow
    have h0 : n ≠ 0 := by omega
    simp only [bitLenAux, h0, if_false]
    cases m with
    | zero => omega
    | succ m' =>
      have hdiv : 2 ^ m' ≤ n / 2 := by
        have hmul : 2 ^ m' * 2 ≤ n := by rw [← pow_succ]; exact hp
        omega
      have hlt : n / 2 ≤ fuel := by omega
      have := ih (n / 2) m' hlt hdiv
      omega

theorem two_pow_bitLenAux_pred_le :
    ∀ (fuel n : Nat), n ≤ fuel → n ≠ 0 → 2 ^ (bitLenAux fuel n - 1) ≤ n := by
  intro fuel
  induction fuel with
  | zero => intro n hf h0; omega
  | succ fuel ih =>
    intro n hf h0
    simp only [bitLenAux, h0, if_false]
    by_cases h2 : n / 2 = 0
    · rw [h2, bitLenAux_zero]
      simpa using Nat.one_le_iff_ne_zero.mpr h0
    · have hle : n / 2 ≤ fuel := by omega
      have hIH : 2 ^ (bitLenAux fuel (n / 2) - 1) ≤ n / 2 := ih (n / 2) hle h2
      have hB : 1 ≤ bitLenAux fuel (n / 2) := by
        have := le_bitLenAux fuel (n / 2) 0 hle (by omega)
        omega
      have hpow : 2 ^ (bitLenAux fuel (n / 2) + 1 - 1) =
          2 ^ (bitLenAux fuel (n / 2) - 1) * 2 := by
        rw [Nat.add_sub_cancel, ← pow_succ]
        congr 1
        omega
      rw [hpow]
      omega

theorem roundMantissa_small {n : Nat} (h : n < 2 ^ 53) : roundMantissa n = n := by
  have hb : bitLen n ≤ 53 := bitLenAux_le n n h
  simp [roundMantissa, hb]

theorem roundMantissa_big {n : Nat} (h : 2 ^ 53 ≤ n) : 2 ^ 53 ≤ roundMantissa n := by
  have hL : 54 ≤ bitLen n := le_bitLenAux n n 53 le_rfl h
  have h0 : n ≠ 0 := by
    have : (1 : Nat) ≤ 2 ^ 53 := Nat.one_le_two_pow
    omega
  have hlow : 2 ^ (bitLen n - 1) ≤ n := two_pow_bitLenAux_pred_le n n le_rfl h0
  simp only [roundMantissa]
  rw [if_neg (by omega)]
  set L := bitLen n with hLdef
  set k := L - 53 with hkdef
  have hq : 2 ^ 52 ≤ n / 2 ^ k := by
    rw [Nat.le_div_iff_mul_le (Nat.pos_pow_of_pos k (by norm_num))]
    calc 2 ^ 52 * 2 ^ k = 2 ^ (52 + k) := by rw [pow_add]
    _ = 2 ^ (L - 1) := by congr 1; omega
    _ ≤ n := hlow
  have hq2 : ∀ q2 : Nat, n / 2 ^ k ≤ q2 → 2 ^ 53 ≤ q2 * 2 ^ k := by
    intro q2 hqq
    calc (2 : Nat) ^ 53 = 2 ^ (52 + 1) := by norm_num
    _ ≤ 2 ^ (52 + k) := Nat.pow_le_pow_right (by norm_num) (by omega)
    _ = 2 ^ 52 * 2 ^ k := by rw [pow_add]
    _ ≤ (n / 2 ^ k) * 2 ^ k := Nat.mul_le_mul_right _ hq
    _ ≤ q2 * 2 ^ k := Nat.mul_le_mul_right _ hqq
  split
  · exact hq2 _ (by omega)
  · split
    · exact hq2 _ le_rfl
    · split
      · exact hq2 _ le_rfl
      · exact hq2 _ (by omega)

theorem roundToDouble_of_safe {v : Int}
    (h1 : -MAX_SAFE_INTEGER ≤ v) (h2 : v ≤ MAX_SAFE_INTEGER) :
    roundToDouble v = v := by
  unfold roundToDouble MAX_SAFE_INTEGER at *
  split
  · rw [roundMantissa_small (by omega)]
    omega
  · rw [roundMantissa_small (by omega)]
    omega

theorem roundToDouble_of_unsafe {v : Int}
    (h : MAX_SAFE_INTEGER < v ∨ v < -MAX_SAFE_INTEGER) :
    MAX_SAFE_INTEGER < roundToDouble v ∨ roundToDouble v < -MAX_SAFE_INTEGER := by
  unfold roundToDouble MAX_SAFE_INTEGER at *
  rcases h with h | h
  · left
    rw [if_pos (by omega)]
    have : 2 ^ 53 ≤ v.toNat := by omega
    have := roundMantissa_big this
    omega
  · right
    rw [if_neg (by omega)]
    have : 2 ^ 53 ≤ (-v).toNat := by omega
    have := roundMantissa_big this
    omega

theorem takeWhile_of_all {p : Char → Bool} :
    ∀ {l : List Char}, l.all p = true → l.takeWhile p = l := by
  intro l
  induction l with
  | nil => intro _; rfl
  | cons c rest ih =>
    intro h
    simp only [List.all_cons, Bool.and_eq_true] at h
    simp [List.takeWhile_cons, h.1, ih h.2]

/-- On a non-empty string accepted in full by `BigInt`, `parseInt` reads
the same value. -/
theorem parseIntJS_of_bigIntOfString {s : List Char} {v : Int}
    (hne : s ≠ []) (hb : bigIntOfString s = some v) :
    parseIntJS s = some v := by
  match s, hne with
  | c :: rest, _ =>
    by_cases hminus : c = '-'
    · subst hminus
      rw [show bigIntOfString ('-' :: rest) =
            if rest ≠ [] ∧ rest.all Char.isDigit then some (-(digitsVal rest : Int))
            else none from rfl] at hb
      rw [show parseIntJS ('-' :: rest) =
            (if rest.takeWhile Char.isDigit = [] then none
             else some (-(digitsVal (rest.takeWhile Char.isDigit) : Int))) from rfl]
      split at hb
      · rename_i hcond
        rw [takeWhile_of_all hcond.2, if_neg hcond.1]
        exact hb
      · simp at hb
    · by_cases hplus : c = '+'
      · subst hplus
        rw [show bigIntOfString ('+' :: rest) =
              if rest ≠ [] ∧ rest.all Char.isDigit then some ((digitsVal rest : Int))
              else none from rfl] at hb
        rw [show parseIntJS ('+' :: rest) =
              (if rest.takeWhile Char.isDigit = [] then none
               else some ((digitsVal (rest.takeWhile Char.isDigit) : Int))) from rfl]
        split at hb
        · rename_i hcond
          rw [takeWhile_of_all hcond.2, if_neg hcond.1]
          exact hb
        · simp at hb
      · simp only [bigIntOfString] at hb
        rw [if_neg hminus, if_neg hplus] at hb
        simp only [parseIntJS]
        rw [if_neg hminus, if_neg hplus]
        split at hb
        · rename_i hcond
          rw [takeWhile_of_all hcond]
          rw [if_neg (by simp)]
          exact hb
        · simp at hb

/-! ## Claim theorems -/

/-- Claim C1.  The spec states that `unescape(escape(s)) == s` for every
string `s`.  It fails on the two-character string backslash-`n`:
`escapeNewLines` doubles the backslash, giving backslash-backslash-`n`,
and `unescapeNewLines` — two sequential global replaces rather than a
single left-to-right pass — first turns the trailing backslash-`n` of the
escaped form into a newline, yielding backslash-newline instead of the
original string. -/
theorem escape_roundtrip_fails_on_backslash_n :
    escapeNewLines ['\\', 'n'] = ['\\', '\\', 'n'] ∧
    unescapeNewLines (escapeNewLines ['\\', 'n']) = ['\\', '\n'] ∧
    unescapeNewLines (escapeNewLines ['\\', 'n']) ≠ ['\\', 'n'] := by
  decide

/-- Claim C2.  A response line whose first byte after the optional `!` is
the error code `x` decodes to a thrown `Js4JJavaError` whose raw-payload
field is the remainder of the line; when the payload is the reference tag
`r` followed by an object ID, the error's host-exception field is the
proxy wrapping that ID, whose `_targetId` is the ID. -/
theorem error_response_raises_java_error (payload oid : List Char) :
    (∃ exc, decodeReturnValue ('!' :: ERROR_CODE :: payload) =
      .error (.javaError payload exc)) ∧
    (∃ exc, decodeReturnValue (ERROR_CODE :: payload) =
      .error (.javaError payload exc)) ∧
    decodeReturnValue ('!' :: ERROR_CODE :: 'r' :: oid) =
      .error (.javaError ('r' :: oid) (some (.wrapped oid 'r'))) ∧
    targetIdOf (.wrapped oid 'r') = some oid := by
  refine ⟨⟨_, rfl⟩, ⟨_, rfl⟩, rfl, rfl⟩

/-- Claim C3.  An integer-valued number in `[-2^31, 2^31-1]` encodes with
type tag `i`; an integer-valued number outside that range but inside the
signed 64-bit range encodes with tag `L`; both carry the base-10 digits
of the value.  (A `bigint` value always encodes with tag `L`, per the
spec's encoder table; this claim is about number values.) -/
theorem integer_encoding_tags (i : Int) :
    (-2147483648 ≤ i → i ≤ 2147483647 →
      encodeCommandPart (.numInt i) =
        some ('i' :: (toString i).data ++ [END_COMMAND_PART])) ∧
    ((i < -2147483648 ∨ 2147483647 < i) →
      -9223372036854775808 ≤ i → i ≤ 9223372036854775807 →
      encodeCommandPart (.numInt i) =
        some ('L' :: (toString i).data ++ [END_COMMAND_PART])) := by
  constructor
  · intro h1 h2
    simp only [encodeCommandPart]
    rw [if_pos ⟨h1, h2⟩]
  · intro h _ _
    simp only [encodeCommandPart]
    rw [if_neg (by rcases h with h | h <;> omega)]

theorem integer_encoding_tags_witness :
    encodeCommandPart (.numInt 7) =
      some ('i' :: (toString (7 : Int)).data ++ [END_COMMAND_PART]) ∧
    encodeCommandPart (.numInt 2147483648) =
      some ('L' :: (toString (2147483648 : Int)).data ++ [END_COMMAND_PART]) :=
  ⟨(integer_encoding_tags 7).1 (by norm_num) (by norm_num),
   (integer_encoding_tags 2147483648).2 (by norm_num) (by norm_num) (by norm_num)⟩

/-- Claim C6.  For a target ID with the static prefix `z:`, `getField`
sends the reflection get-member command — `r\nm\n<FQN>\n<FIELD>\ne\n`
with the prefix stripped, whose first bytes are not the field-get
command's — and returns the decoded response. -/
theorem getField_static_routes_through_reflection (fqn field answer : List Char) :
    getField (STATIC_PREFIX_STR ++ fqn) field answer =
      (REFLECTION_COMMAND_NAME ++ REFL_GET_MEMBER_SUB_COMMAND_NAME ++
        fqn ++ [END_COMMAND_PART] ++ field ++ [END_COMMAND_PART] ++
        END_TOKEN ++ [END_COMMAND_PART],
       decodeReturnValue answer) ∧
    (getFieldCommand (STATIC_PREFIX_STR ++ fqn) field).take 2 ≠ FIELD_COMMAND_NAME := by
  constructor
  · rfl
  · rw [show (getFieldCommand (STATIC_PREFIX_STR ++ fqn) field).take 2 =
        ['r', '\n'] from rfl]
    decide

/-- Claim C7, counterexample.  The claim states that accessing *any*
property name on a package proxy yields a class proxy (uppercase first
character) or a new package proxy (otherwise).  The lowercase name `then`
refutes it: `packageProxy("a.b").then` is `undefined`, not a package
proxy for `a.b.then` (the trap refuses `then` before the case
heuristic runs). -/
theorem package_get_then_is_not_a_package_proxy :
    javaPackageGet "a.b".data "then".data = .undefinedV ∧
    javaPackageGet "a.b".data "then".data ≠ .packageProxy "a.b.then".data := by
  decide

/-- Claim C7, amended.  For every property name that is not `then`, not
one of the names already present on the underlying function object
(`_fqn`, `_isJavaPackage`, and the standard function/object prototype
members, which `prop in target` passes through), package-proxy property
access concatenates the dotted name and yields a class proxy exactly when
the first character of the name is upper-case (has an upper-case form and
a distinct lower-case form), and a new package proxy otherwise; in
particular `.X` on `a.b` is a class proxy with `_fqn == "a.b.X"` and
`.x` is a package proxy with `_fqn == "a.b.x"`. -/
theorem package_property_dispatch (p : List Char) (c : Char) (cs : List Char)
    (hin : (c :: cs) ∉ javaPackageInProps)
    (hthen : (c :: cs) ≠ "then".data) :
    (javaPackageGet p (c :: cs) =
      if jsUpperFirst c then .classProxy (childFqn p (c :: cs))
      else .packageProxy (childFqn p (c :: cs))) ∧
    (p ≠ [] → childFqn p (c :: cs) = p ++ '.' :: (c :: cs)) ∧
    javaPackageGet "a.b".data "X".data = .classProxy "a.b.X".data ∧
    javaPackageGet "a.b".data "x".data = .packageProxy "a.b.x".data := by
  refine ⟨?_, ?_, by decide, by decide⟩
  · simp only [javaPackageGet]
    rw [if_neg hin, if_neg hthen]
  · intro hp
    simp [childFqn, hp]

theorem package_property_dispatch_witness :
    javaPackageGet "a.b".data ('Q' :: ['x']) =
      .classProxy (childFqn "a.b".data ('Q' :: ['x'])) := by
  rw [(package_property_dispatch "a.b".data 'Q' ['x'] (by decide) (by decide)).1]
  decide

/-- Claim C8.  Decoding a digit-string payload under tag `L` parses it
with `parseInt` (whose result is the payload's value rounded to a
double), and promotes to an exact `BigInt` precisely when the value lies
outside `[-(2^53-1), 2^53-1]`; inside that range the double rounding is
exact, so the result is a native number equal to the payload's value. -/
theorem long_decoding_promotes_outside_safe_range (s : List Char) (v : Int)
    (hne : s ≠ []) (hb : bigIntOfString s = some v) :
    decodeTypedValue 'L' s =
      .ok (if MAX_SAFE_INTEGER < v ∨ v < -MAX_SAFE_INTEGER
           then .bigV v else .numV v) := by
  have hp : parseIntJS s = some v := parseIntJS_of_bigIntOfString hne hb
  rw [show decodeTypedValue 'L' s =
        (match parseIntJS s with
         | none => .ok .nanV
         | some w =>
           let n := roundToDouble w
           if MAX_SAFE_INTEGER < n ∨ n < -MAX_SAFE_INTEGER then
             match bigIntOfString s with
             | some b => .ok (.bigV b)
             | none => .error "Cannot convert to a BigInt".data
           else .ok (.numV n)) from rfl]
  rw [hp]
  by_cases hout : MAX_SAFE_INTEGER < v ∨ v < -MAX_SAFE_INTEGER
  · have hr := roundToDouble_of_unsafe hout
    simp only [if_pos hr, if_pos hout, hb]
  · push_neg at hout
    have hr : roundToDouble v = v := roundToDouble_of_safe (by omega) (by omega)
    simp only [hr]
    rw [if_neg (by omega), if_neg (by omega)]

theorem long_decoding_witness :
    decodeTypedValue 'L' ['4', '2'] = .ok (.numV 42) ∧
    decodeTypedValue 'L' "9007199254740993".data = .ok (.bigV 9007199254740993) := by
  constructor
  · rw [long_decoding_promotes_outside_safe_range ['4', '2'] 42 (by decide) (by decide)]
    decide
  · rw [long_decoding_promotes_outside_safe_range "9007199254740993".data
      9007199254740993 (by decide) (by decide)]
    decide

/-- Claim C9.  On every proxy kind — object, list, set, map, array,
iterator, class, package, and the namespace view — accessing the property
named `then` yields `undefined`, never a remote-call closure. -/
theorem then_refused_on_every_proxy_kind (tid fqn p : List Char)
    (imports : List (List Char × List Char)) :
    javaObjectGet tid "then".data = .undefinedV ∧
    javaListGet tid "then".data = .undefinedV ∧
    javaSetGet tid "then".data = .undefinedV ∧
    javaMapGet tid "then".data = .undefinedV ∧
    javaArrayGet "then".data = .undefinedV ∧
    javaIteratorGet tid "then".data = .undefinedV ∧
    javaClassGet fqn "then".data = .undefinedV ∧
    javaPackageGet p "then".data = .undefinedV ∧
    jvmViewGet imports "then".data = .undefinedV :=
  ⟨rfl, rfl, rfl, rfl, rfl, rfl, rfl, rfl, rfl⟩

/-- Claim C4, counterexample.  The claim states that a complete command
whose first line is neither `c` nor `g` provokes an error reply.  On the
command `x` / `e` (unknown discriminator, empty pool) `_handleCommand`
performs no socket action at all — in particular it writes no error
reply — because the `c`/`g` dispatch has no else branch. -/
theorem unknown_command_writes_nothing_counterexample :
    handleCommand [['x'], ['e']] [] = ([], []) := rfl

/-- Claim C4, amended.  When the callback server receives a complete
command whose first line is neither `c` nor `g`, it writes nothing back
on the connection (the command is silently ignored, with no error reply)
and keeps the connection open with the proxy pool unchanged. -/
theorem unknown_command_is_ignored (first : List Char) (rest : List (List Char))
    (pool : CallbackPool) (hc : first ≠ ['c']) (hg : first ≠ ['g']) :
    handleCommand (first :: rest) pool = ([], pool) := by
  simp only [handleCommand]
  rw [if_neg hc, if_neg hg]

theorem unknown_command_is_ignored_witness :
    handleCommand [['z'], ['e']] [] = ([], []) :=
  unknown_command_is_ignored ['z'] [['e']] [] (by decide) (by decide)

/-- Claim C10.  When a `c` command's method invocation succeeds with a
non-null value whose encoding throws (here: a plain JavaScript array),
the inner `catch` of `_sendSuccess` replies with the void-success line
`!yv\n` — reporting success with no value, not an error — and performs no
other socket action, so the connection stays usable. -/
theorem encoding_failure_reports_void_success (pool : CallbackPool)
    (pid m : List Char) (proxy : CallbackProxy) (method : CallbackMethod)
    (argLines : List (List Char)) (args : List DecodedValue) (v : JSValue)
    (hp : pool.lookup pid = some proxy)
    (hm : proxy.lookup m = some method)
    (ha : decodeArgs argLines = .ok args)
    (hf : method args = .ok v)
    (hv1 : v ≠ .nullV) (hv2 : v ≠ .undefinedV)
    (he : encodeCommandPart v = none) :
    handleCommand (['c'] :: pid :: m :: (argLines ++ [END_TOKEN])) pool =
      ([SockAct.write ['!', SUCCESS, 'v', '\n']], pool) := by
  have hsplit : ['c'] :: pid :: m :: (argLines ++ [END_TOKEN]) =
      (['c'] :: pid :: m :: argLines) ++ [END_TOKEN] := by simp
  have hlen : (['c'] :: pid :: m :: (argLines ++ [END_TOKEN])).length - 1 =
      (['c'] :: pid :: m :: argLines).length := by
    simp
  have htake : ((['c'] :: pid :: m :: (argLines ++ [END_TOKEN])).take
      ((['c'] :: pid :: m :: (argLines ++ [END_TOKEN])).length - 1)).drop 3 =
      argLines := by
    rw [hlen, hsplit, List.take_left]
    rfl
  simp only [handleCommand, List.getD]
  rw [if_pos trivial]
  simp only [htake]
  rw [show (['c'] :: pid :: m :: (argLines ++ [END_TOKEN])).get? 1 = some pid from rfl,
      show (['c'] :: pid :: m :: (argLines ++ [END_TOKEN])).get? 2 = some m from rfl]
  simp only [Option.getD_some]
  simp only [hp, hm, ha, hf]
  simp only [sendSuccessResponse, sendSuccessVoidResponse]
  rw [if_neg (by simp [hv1, hv2]), he]

theorem encoding_failure_reports_void_success_witness :
    handleCommand (['c'] :: ['p', '0'] :: ['m'] :: ([] ++ [END_TOKEN]))
      arrayReturningPool =
      ([SockAct.write ['!', SUCCESS, 'v', '\n']], arrayReturningPool) :=
  encoding_failure_reports_void_success arrayReturningPool ['p', '0'] ['m']
    [(['m'], fun _ => Except.ok JSValue.arrV)]
    (fun _ => Except.ok JSValue.arrV) [] [] JSValue.arrV
    rfl rfl rfl rfl (by decide) (by decide) rfl

theorem acquireFresh_maxConnections (s : PoolState) (ok : Bool) :
    (acquireFresh s ok).maxConnections = s.maxConnections := by
  unfold acquireFresh
  split
  · split <;> rfl
  · rfl

theorem poolStep_maxConnections (s : PoolState) (e : PoolEvent) :
    (poolStep s e).maxConnections = s.maxConnections := by
  cases e with
  | acquire ok =>
    rcases hidle : s.idle with _ | ⟨c, rest⟩
    · simp only [poolStep, hidle]
      exact acquireFresh_maxConnections _ _
    · simp only [poolStep, hidle]
      split
      · rfl
      · exact acquireFresh_maxConnections _ _
  | release live =>
    simp only [poolStep]
    split
    · rfl
    · split <;> rfl
  | disconnect n => rfl

theorem poolStep_active_idle_bound (s : PoolState) (e : PoolEvent)
    (h : s.active + (s.idle.length : Int) ≤ (s.maxConnections : Int)) :
    (poolStep s e).active + ((poolStep s e).idle.length : Int) ≤
      ((poolStep s e).maxConnections : Int) := by
  rw [poolStep_maxConnections]
  cases e with
  | acquire ok =>
    rcases hidle : s.idle with _ | ⟨c, rest⟩ <;> rw [hidle] at h <;>
      simp only [List.length_nil, List.length_cons] at h
    · simp only [poolStep, hidle]
      unfold acquireFresh
      split
      · rename_i hlt
        split
        · simp only [hidle, List.length_nil]
          push_cast
          omega
        · simpa [hidle] using h
      · simpa [hidle] using h
    · simp only [poolStep, hidle]
      split
      · simp only [List.length_cons] at *
        push_cast at *
        omega
      · unfold acquireFresh
        split
        · split
          · simp only [List.length_cons] at *
            push_cast at *
            omega
          · simp only [List.length_cons] at *
            push_cast at *
            omega
        · simp only [List.length_cons] at *
          push_cast at *
          omega
  | release live =>
    simp only [poolStep]
    split
    · simpa using h
    · split
      · simp only [List.length_cons]
        push_cast
        omega
      · simp only []
        omega
  | disconnect n =>
    simp only [poolStep, List.length_set]
    exact h

theorem pool_bound_aux :
    ∀ (events : List PoolEvent) (s : PoolState),
      s.active + (s.idle.length : Int) ≤ (s.maxConnections : Int) →
      (events.foldl poolStep s).active +
          ((events.foldl poolStep s).idle.length : Int) ≤
        ((events.foldl poolStep s).maxConnections : Int) ∧
      (events.foldl poolStep s).maxConnections = s.maxConnections := by
  intro events
  induction events with
  | nil => intro s h; exact ⟨h, rfl⟩
  | cons e es ih =>
    intro s h
    have h1 := poolStep_active_idle_bound s e h
    have h2 := ih (poolStep s e) h1
    exact ⟨h2.1, h2.2.trans (poolStep_maxConnections s e)⟩

/-- Claim C5.  Starting from a freshly constructed pool with maximum
`mx`, after any sequence of `acquire` / `release` operations (and idle
sockets dying underneath the pool), the `_active` count of handed-out
connections plus the number of idle connections never exceeds `mx`. -/
theorem pool_active_plus_idle_bounded (mx : Nat) (events : List PoolEvent) :
    (events.foldl poolStep (poolInit mx)).active +
      ((events.foldl poolStep (poolInit mx)).idle.length : Int) ≤ (mx : Int) := by
  have h := pool_bound_aux events (poolInit mx) (by simp [poolInit])
  calc (events.foldl poolStep (poolInit mx)).active +
      ((events.foldl poolStep (poolInit mx)).idle.length : Int) ≤
      ((events.foldl poolStep (poolInit mx)).maxConnections : Int) := h.1
  _ = (mx : Int) := by rw [h.2]; rfl
